import Mathlib

/-!
Verification of the scoring engine of the charity cyber-risk assessment tool.

The definitions below are a shallow embedding of `src/scoring.py`.  Python
dicts are modelled as association lists (`List (String × _)`) in insertion
order, Python numbers as `ℚ`, and Python exceptions (`KeyError`,
`ZeroDivisionError`, `IndexError`) as an explicit error type threaded through
`Except`.  Python's built-in `round(x, 2)` rounds half to even, which
`round2` reproduces exactly on rationals.
-/

namespace CharityRisk

/-- Exceptions the Python engine can raise. -/
inductive PyError where
  | keyError : String → PyError
  | zeroDivisionError : PyError
  | indexError : PyError
deriving DecidableEq, Repr

/-- The charity-context record consumed by `calculate_impact`: four factors. -/
structure Context where
  data_sensitivity : ℚ
  operational_dependency : ℚ
  financial_exposure : ℚ
  reputational_risk : ℚ
deriving DecidableEq, Repr

/-- Round-half-to-even to the nearest integer, as Python's built-in `round`. -/
def pyround (x : ℚ) : ℤ :=
  if x - ⌊x⌋ = 1 / 2 then (if ⌊x⌋ % 2 = 0 then ⌊x⌋ else ⌊x⌋ + 1) else round x

/-- Python's `round(x, 2)`: round to two decimal places. -/
def round2 (x : ℚ) : ℚ :=
  (pyround (100 * x) : ℚ) / 100

/-- The list comprehension `[responses[qid] for qid in qids]`: a missing key
raises `KeyError` at the first absent identifier. -/
def lookupRatings (responses : List (String × ℚ)) : List String → Except PyError (List ℚ)
  | [] => .ok []
  | q :: qs =>
    match responses.lookup q with
    | none => .error (.keyError q)
    | some v => do
      let vs ← lookupRatings responses qs
      .ok (v :: vs)

/-- `calculate_domain_scores` from `src/scoring.py`: average maturity per
domain, rounded to two decimals.  An empty question list makes
`sum(scores)/len(scores)` raise `ZeroDivisionError`. -/
def calculate_domain_scores (responses : List (String × ℚ))
    (domain_question_ids : List (String × List String)) :
    Except PyError (List (String × ℚ)) :=
  match domain_question_ids with
  | [] => .ok []
  | (domain, qids) :: rest => do
    let scores ← lookupRatings responses qids
    match scores with
    | [] => .error .zeroDivisionError
    | _ => do
      let tail ← calculate_domain_scores responses rest
      .ok ((domain, round2 (scores.sum / (scores.length : ℚ))) :: tail)

/-- `calculate_likelihood` from `src/scoring.py`.  When no weight map is
supplied every domain of the score map gets weight 1; the weighted weakness
sum uses `domain_weights.get(domain, 1)` while the divisor is
`sum(domain_weights.values())`; a zero divisor raises `ZeroDivisionError`. -/
def calculate_likelihood (domain_scores : List (String × ℚ))
    (domain_weights : Option (List (String × ℚ))) : Except PyError ℚ :=
  let w : List (String × ℚ) :=
    match domain_weights with
    | none => domain_scores.map (fun p => (p.1, (1 : ℚ)))
    | some m => m
  let total_weight : ℚ := (w.map Prod.snd).sum
  let weighted_weakness : ℚ :=
    (domain_scores.map (fun p => (4 - p.2) * ((w.lookup p.1).getD 1))).sum
  if total_weight = 0 then .error .zeroDivisionError
  else .ok (round2 (weighted_weakness / total_weight))

/-- `calculate_impact` from `src/scoring.py`: mean of the four context
factors, rounded to two decimals. -/
def calculate_impact (context : Context) : ℚ :=
  round2 ((context.data_sensitivity + context.operational_dependency +
    context.financial_exposure + context.reputational_risk) / 4)

/-- `calculate_risk` from `src/scoring.py`. -/
def calculate_risk (likelihood impact : ℚ) : ℚ :=
  round2 (likelihood * impact)

/-- `risk_band` from `src/scoring.py`. -/
def risk_band (risk_score : ℚ) : String :=
  if risk_score < 4 then "Low"
  else if risk_score < 9 then "Medium"
  else "High"

/-- Stable insertion of a pair into a list kept in descending order of the
second component; together with `sortDesc` this realises Python's stable
`list.sort(key=lambda x: x[1], reverse=True)`. -/
def insertDesc (x : String × ℚ) : List (String × ℚ) → List (String × ℚ)
  | [] => [x]
  | y :: ys => if y.2 ≤ x.2 then x :: y :: ys else y :: insertDesc x ys

/-- Stable sort, descending in the second component. -/
def sortDesc : List (String × ℚ) → List (String × ℚ)
  | [] => []
  | x :: xs => insertDesc x (sortDesc xs)

/-- `rank_weak_domains` from `src/scoring.py`: pair every domain with
`round(4 - score, 2)` and sort worst-first (stable, descending). -/
def rank_weak_domains (domain_scores : List (String × ℚ)) : List (String × ℚ) :=
  sortDesc (domain_scores.map (fun p => (p.1, round2 (4 - p.2))))

/-- The `if/elif` chain of `generate_recommendations`: the two fixed strings
appended for a recognised domain name, nothing for any other name. -/
def domainRecs (d : String) : List String :=
  if d = "Identify" then
    ["Create a simple inventory of key accounts, devices, and the types of sensitive data held (donor/beneficiary/finance).",
     "Clarify who can access what (even a basic spreadsheet of roles and access helps)."]
  else if d = "Protect" then
    ["Enable multi-factor authentication on email, cloud storage and finance systems.",
     "Introduce short phishing awareness guidance for staff/volunteers and basic device hygiene (screen locks, updates)."]
  else if d = "Detect" then
    ["Set up basic alerts (e.g., email login alerts) and encourage reporting of suspicious emails immediately.",
     "Check key accounts weekly for unusual activity (manual monitoring is still monitoring)."]
  else if d = "Respond" then
    ["Write a one-page incident checklist: who to contact, how to reset passwords, how to isolate affected accounts.",
     "Decide who leads incident response (named person/role) and when to escalate to external IT help."]
  else if d = "Recover" then
    ["Ensure backups exist, are protected, and test a basic restore process (even once a month).",
     "After any incident/near-miss, record what happened and one improvement action for next time."]
  else []

/-- `generate_recommendations` from `src/scoring.py`: recommendations for the
two weakest domains (one domain when only one exists); indexing `ranked[0]`
on an empty ranking raises `IndexError`. -/
def generate_recommendations (domain_scores : List (String × ℚ)) :
    Except PyError (List String) :=
  match rank_weak_domains domain_scores with
  | [] => .error .indexError
  | [a] => .ok (domainRecs a.1)
  | a :: b :: _ => .ok (domainRecs a.1 ++ domainRecs b.1)

/-- The structured result dictionary returned by `run_assessment`. -/
structure Result where
  domain_scores : List (String × ℚ)
  likelihood : ℚ
  impact : ℚ
  risk_score : ℚ
  risk_band : String
  weak_domain_ranking : List (String × ℚ)
  recommendations : List String
deriving DecidableEq, Repr

/-- `run_assessment` from `src/scoring.py`: the orchestrator. -/
def run_assessment (responses : List (String × ℚ))
    (domain_question_ids : List (String × List String)) (context : Context)
    (domain_weights : Option (List (String × ℚ))) : Except PyError Result := do
  let domain_scores ← calculate_domain_scores responses domain_question_ids
  let likelihood ← calculate_likelihood domain_scores domain_weights
  let impact := calculate_impact context
  let risk := calculate_risk likelihood impact
  let recs ← generate_recommendations domain_scores
  .ok
    { domain_scores := domain_scores
      likelihood := likelihood
      impact := impact
      risk_score := risk
      risk_band := risk_band risk
      weak_domain_ranking := rank_weak_domains domain_scores
      recommendations := recs }

/-! ### Basic facts about the monadic plumbing and the rounding function -/

theorem exceptBind_ok {α β : Type} (a : α) (f : α → Except PyError β) :
    (Except.ok a >>= f) = f a := rfl

theorem exceptBind_error {α β : Type} (e : PyError) (f : α → Except PyError β) :
    ((Except.error e : Except PyError α) >>= f) = Except.error e := rfl

theorem pyround_le {x : ℚ} {n : ℤ} (h : x ≤ n) : pyround x ≤ n := by
  unfold pyround
  have hfl : (⌊x⌋ : ℚ) ≤ n := le_trans (Int.floor_le x) h
  have hfl' : ⌊x⌋ ≤ n := by exact_mod_cast hfl
  split_ifs with h1 h2
  · exact hfl'
  · have hx : x = (⌊x⌋ : ℚ) + 1 / 2 := by linarith
    have : (⌊x⌋ : ℚ) < n := by rw [hx] at h; linarith
    have : ⌊x⌋ < n := by exact_mod_cast this
    omega
  · rw [round_eq]
    have := Int.floor_lt.2 (show x + 1 / 2 < ((n + 1 : ℤ) : ℚ) by push_cast; linarith)
    omega

theorem le_pyround {x : ℚ} {n : ℤ} (h : (n : ℚ) ≤ x) : n ≤ pyround x := by
  unfold pyround
  split_ifs with h1 h2
  · have hx : x = (⌊x⌋ : ℚ) + 1 / 2 := by linarith
    have : (n : ℚ) < (⌊x⌋ : ℚ) + 1 := by rw [hx] at h; linarith
    have : n < ⌊x⌋ + 1 := by exact_mod_cast this
    omega
  · have hx : x = (⌊x⌋ : ℚ) + 1 / 2 := by linarith
    have : (n : ℚ) < (⌊x⌋ : ℚ) + 1 := by rw [hx] at h; linarith
    have : n < ⌊x⌋ + 1 := by exact_mod_cast this
    omega
  · rw [round_eq]
    exact Int.le_floor.2 (by linarith)

theorem round2_nonneg {x : ℚ} (h : 0 ≤ x) : 0 ≤ round2 x := by
  unfold round2
  have h' : ((0 : ℤ) : ℚ) ≤ 100 * x := by push_cast; linarith
  have := le_pyround h'
  have : ((0 : ℤ) : ℚ) ≤ (pyround (100 * x) : ℚ) := by exact_mod_cast this
  have h0 : (0 : ℚ) ≤ (pyround (100 * x) : ℚ) := by push_cast at this; linarith
  positivity

theorem round2_le_of_le {x : ℚ} {n : ℤ} (h : x ≤ n) : round2 x ≤ n := by
  unfold round2
  rw [div_le_iff₀ (by norm_num : (0 : ℚ) < 100)]
  have h' : 100 * x ≤ ((100 * n : ℤ) : ℚ) := by push_cast; linarith
  have := pyround_le h'
  have hc : (pyround (100 * x) : ℚ) ≤ ((100 * n : ℤ) : ℚ) := by exact_mod_cast this
  push_cast at hc ⊢
  linarith

theorem le_round2_of_le {x : ℚ} {n : ℤ} (h : (n : ℚ) ≤ x) : (n : ℚ) ≤ round2 x := by
  unfold round2
  rw [le_div_iff₀ (by norm_num : (0 : ℚ) < 100)]
  have h' : ((100 * n : ℤ) : ℚ) ≤ 100 * x := by push_cast; linarith
  have := le_pyround h'
  have hc : ((100 * n : ℤ) : ℚ) ≤ (pyround (100 * x) : ℚ) := by exact_mod_cast this
  push_cast at hc ⊢
  linarith

theorem round2_le_four {x : ℚ} (h : x ≤ 4) : round2 x ≤ 4 := by
  have := @round2_le_of_le x 4 (by push_cast; linarith)
  push_cast at this
  linarith

theorem round2_le_sixteen {x : ℚ} (h : x ≤ 16) : round2 x ≤ 16 := by
  have := @round2_le_of_le x 16 (by push_cast; linarith)
  push_cast at this
  linarith

/-! ### Concrete inputs used by witnesses -/

/-- A small well-formed assessment input: one domain, one question rated 2. -/
def wResponses : List (String × ℚ) := [("ID1", 2)]

def wGrouping : List (String × List String) := [("Identify", ["ID1"])]

def wContext : Context := ⟨2, 2, 2, 2⟩

/-- The result the engine produces on the input above. -/
def wResult : Result :=
  { domain_scores := [("Identify", 2)]
    likelihood := 2
    impact := 2
    risk_score := 4
    risk_band := "Medium"
    weak_domain_ranking := [("Identify", 2)]
    recommendations := domainRecs "Identify" }

/-- C2: for every risk score in `[0,16]` the bander returns "Low" iff the
score is in `[0,4)`, "Medium" iff it is in `[4,9)` and "High" iff it is in
`[9,16]`; moreover 3.99 → Low, 4.00 → Medium, 8.99 → Medium, 9.00 → High and
16.00 → High. -/
theorem risk_band_thresholds (r : ℚ) (h0 : 0 ≤ r) (h16 : r ≤ 16) :
    ((risk_band r = "Low" ↔ 0 ≤ r ∧ r < 4) ∧
     (risk_band r = "Medium" ↔ 4 ≤ r ∧ r < 9) ∧
     (risk_band r = "High" ↔ 9 ≤ r ∧ r ≤ 16)) ∧
    (risk_band (399 / 100) = "Low" ∧ risk_band 4 = "Medium" ∧
     risk_band (899 / 100) = "Medium" ∧ risk_band 9 = "High" ∧
     risk_band 16 = "High") := by
  constructor
  · rcases lt_or_le r 4 with h4 | h4
    · have hb : risk_band r = "Low" := by unfold risk_band; rw [if_pos h4]
      rw [hb]
      exact ⟨⟨fun _ => ⟨h0, h4⟩, fun _ => rfl⟩,
        ⟨fun habs => absurd habs (by decide), fun hc => absurd hc.1 (by linarith)⟩,
        ⟨fun habs => absurd habs (by decide), fun hc => absurd hc.1 (by linarith)⟩⟩
    · rcases lt_or_le r 9 with h9 | h9
      · have hb : risk_band r = "Medium" := by
          unfold risk_band; rw [if_neg (not_lt.2 h4), if_pos h9]
        rw [hb]
        exact ⟨⟨fun habs => absurd habs (by decide), fun hc => absurd hc.2 (by linarith)⟩,
          ⟨fun _ => ⟨h4, h9⟩, fun _ => rfl⟩,
          ⟨fun habs => absurd habs (by decide), fun hc => absurd hc.1 (by linarith)⟩⟩
      · have hb : risk_band r = "High" := by
          unfold risk_band; rw [if_neg (not_lt.2 h4), if_neg (not_lt.2 h9)]
        rw [hb]
        exact ⟨⟨fun habs => absurd habs (by decide), fun hc => absurd hc.2 (by linarith)⟩,
          ⟨fun habs => absurd habs (by decide), fun hc => absurd hc.2 (by linarith)⟩,
          ⟨fun _ => ⟨h9, h16⟩, fun _ => rfl⟩⟩
  · refine ⟨?_, ?_, ?_, ?_, ?_⟩ <;> norm_num [risk_band]

/-- Witness for C2 at the concrete risk score 5. -/
theorem risk_band_thresholds_witness : risk_band 5 = "Medium" :=
  ((risk_band_thresholds 5 (by norm_num) (by norm_num)).1.2.1).mpr (by norm_num)

/-- C9: the orchestrator is deterministic — two calls on identical inputs
return results that agree in every field. -/
theorem run_assessment_deterministic (responses : List (String × ℚ))
    (grouping : List (String × List String)) (context : Context)
    (weights : Option (List (String × ℚ))) (res1 res2 : Result)
    (h1 : run_assessment responses grouping context weights = .ok res1)
    (h2 : run_assessment responses grouping context weights = .ok res2) :
    res1.domain_scores = res2.domain_scores ∧ res1.likelihood = res2.likelihood ∧
    res1.impact = res2.impact ∧ res1.risk_score = res2.risk_score ∧
    res1.risk_band = res2.risk_band ∧
    res1.weak_domain_ranking = res2.weak_domain_ranking ∧
    res1.recommendations = res2.recommendations := by
  rw [h1] at h2
  injection h2 with h
  subst h
  exact ⟨rfl, rfl, rfl, rfl, rfl, rfl, rfl⟩

/-- The engine evaluated on the concrete well-formed input above. -/
theorem run_assessment_wInput :
    run_assessment wResponses wGrouping wContext none = .ok wResult := by
  norm_num [run_assessment, calculate_domain_scores, lookupRatings, calculate_likelihood,
    calculate_impact, calculate_risk, risk_band, rank_weak_domains, sortDesc, insertDesc,
    generate_recommendations, round2, pyround, wResponses, wGrouping, wContext, wResult,
    List.lookup_cons, bind, Except.bind]

/-- Witness for C9 at a concrete input. -/
theorem run_assessment_deterministic_witness :
    wResult.domain_scores = wResult.domain_scores ∧
    wResult.likelihood = wResult.likelihood ∧ wResult.impact = wResult.impact ∧
    wResult.risk_score = wResult.risk_score ∧
    wResult.risk_band = wResult.risk_band ∧
    wResult.weak_domain_ranking = wResult.weak_domain_ranking ∧
    wResult.recommendations = wResult.recommendations :=
  run_assessment_deterministic wResponses wGrouping wContext none wResult wResult
    run_assessment_wInput run_assessment_wInput

/-- C6 counterexample: an empty domain set with a supplied positive weight
map yields the silent result 0.0, not an error, contradicting the claim that
an empty domain set always halts the computation. -/
theorem calculate_likelihood_empty_domains_silent_zero :
    calculate_likelihood [] (some [("Identify", 1)]) = .ok 0 ∧
    Except.ok (0 : ℚ) ≠ (Except.error PyError.zeroDivisionError : Except PyError ℚ) := by
  constructor
  · norm_num [calculate_likelihood, round2, pyround]
  · intro h
    cases h

/-- C6 (amended): the likelihood calculator halts with an explicit error
(Python's `ZeroDivisionError`, realising `InvalidConfiguration`) whenever the
supplied weight map's values sum to zero — in particular when it assigns
weight 0 to every domain — or when the domain set is empty and no weight map
is supplied. -/
theorem calculate_likelihood_zero_total_weight (ds : List (String × ℚ))
    (w : Option (List (String × ℚ)))
    (h : (∃ m, w = some m ∧ (m.map Prod.snd).sum = 0) ∨ (w = none ∧ ds = [])) :
    calculate_likelihood ds w = .error .zeroDivisionError := by
  rcases h with ⟨m, rfl, hm⟩ | ⟨rfl, rfl⟩
  · simp [calculate_likelihood, hm]
  · simp [calculate_likelihood]

/-- Witness for the amended C6: every domain weighted 0 is rejected. -/
theorem calculate_likelihood_zero_total_weight_witness :
    calculate_likelihood [("Identify", 2)] (some [("Identify", 0), ("Protect", 0)]) =
      .error .zeroDivisionError :=
  calculate_likelihood_zero_total_weight _ _ (Or.inl ⟨_, rfl, by norm_num⟩)

/-! ### The weakness ranking is a sorted permutation -/

theorem insertDesc_perm (x : String × ℚ) (l : List (String × ℚ)) :
    (insertDesc x l).Perm (x :: l) := by
  induction l with
  | nil => exact List.Perm.refl _
  | cons y ys ih =>
    unfold insertDesc
    split_ifs with h
    · exact List.Perm.refl _
    · exact (List.Perm.cons y ih).trans (List.Perm.swap x y ys)

theorem sortDesc_perm (l : List (String × ℚ)) : (sortDesc l).Perm l := by
  induction l with
  | nil => exact List.Perm.refl _
  | cons x xs ih => exact (insertDesc_perm x (sortDesc xs)).trans (List.Perm.cons x ih)

theorem insertDesc_pairwise (x : String × ℚ) (l : List (String × ℚ))
    (h : l.Pairwise (fun a b => b.2 ≤ a.2)) :
    (insertDesc x l).Pairwise (fun a b => b.2 ≤ a.2) := by
  induction l with
  | nil => simp [insertDesc]
  | cons y ys ih =>
    rw [List.pairwise_cons] at h
    obtain ⟨h1, h2⟩ := h
    unfold insertDesc
    split_ifs with hyx
    · rw [List.pairwise_cons]
      refine ⟨?_, ?_⟩
      · intro z hz
        rcases List.mem_cons.1 hz with rfl | hz'
        · exact hyx
        · exact le_trans (h1 z hz') hyx
      · rw [List.pairwise_cons]
        exact ⟨h1, h2⟩
    · rw [List.pairwise_cons]
      refine ⟨?_, ih h2⟩
      intro z hz
      rcases List.mem_cons.1 ((insertDesc_perm x ys).mem_iff.1 hz) with rfl | hz'
      · exact le_of_lt (lt_of_not_le hyx)
      · exact h1 z hz'

theorem sortDesc_pairwise (l : List (String × ℚ)) :
    (sortDesc l).Pairwise (fun a b => b.2 ≤ a.2) := by
  induction l with
  | nil => simp [sortDesc]
  | cons x xs ih => exact insertDesc_pairwise x _ ih

/-- C8: the weakness ranker emits exactly one `(domain, round2 (4 - maturity))`
pair per entry of the maturity map (as a permutation of that list of pairs),
and the output is pairwise — hence adjacently — descending in weakness. -/
theorem rank_weak_domains_spec (ds : List (String × ℚ)) :
    (rank_weak_domains ds).Perm (ds.map (fun p => (p.1, round2 (4 - p.2)))) ∧
    (rank_weak_domains ds).Pairwise (fun a b => b.2 ≤ a.2) :=
  ⟨sortDesc_perm _, sortDesc_pairwise _⟩

/-! ### Recommendation counts -/

theorem rank_weak_domains_length (ds : List (String × ℚ)) :
    (rank_weak_domains ds).length = ds.length := by
  have := (sortDesc_perm (ds.map (fun p => (p.1, round2 (4 - p.2))))).length_eq
  simpa [rank_weak_domains] using this

theorem mem_rank_weak_domains {ds : List (String × ℚ)} {z : String × ℚ}
    (hz : z ∈ rank_weak_domains ds) : ∃ p ∈ ds, z = (p.1, round2 (4 - p.2)) := by
  have hm := (sortDesc_perm (ds.map (fun p => (p.1, round2 (4 - p.2))))).mem_iff.1 hz
  obtain ⟨p, hp, he⟩ := List.mem_map.1 hm
  exact ⟨p, hp, he.symm⟩

/-- The five CSF domain names carrying recommendation text. -/
def csfDomains : List String := ["Identify", "Protect", "Detect", "Respond", "Recover"]

theorem domainRecs_length_of_mem {d : String} (h : d ∈ csfDomains) :
    (domainRecs d).length = 2 := by
  simp only [csfDomains, List.mem_cons, List.mem_singleton, List.not_mem_nil, or_false] at h
  rcases h with rfl | rfl | rfl | rfl | rfl <;> rfl

/-- C7 (amended): when every domain name in the maturity map is one of the
five CSF domains, the generator returns exactly 4 strings for maps with at
least two domains and exactly 2 strings for a single-domain map. -/
theorem generate_recommendations_count (ds : List (String × ℚ))
    (h5 : ∀ p ∈ ds, p.1 ∈ csfDomains) :
    (2 ≤ ds.length → (generate_recommendations ds).toOption.map List.length = some 4) ∧
    (ds.length = 1 → (generate_recommendations ds).toOption.map List.length = some 2) := by
  have hlen := rank_weak_domains_length ds
  have hmem : ∀ z ∈ rank_weak_domains ds, z.1 ∈ csfDomains := by
    intro z hz
    obtain ⟨p, hp, rfl⟩ := mem_rank_weak_domains hz
    exact h5 p hp
  constructor
  · intro h2
    rcases hr : rank_weak_domains ds with _ | ⟨a, _ | ⟨b, t⟩⟩
    · rw [hr] at hlen; simp at hlen; omega
    · rw [hr] at hlen; simp at hlen; omega
    · have ha := hmem a (by rw [hr]; exact List.mem_cons_self _ _)
      have hb := hmem b (by rw [hr]; simp)
      simp [generate_recommendations, hr, Except.toOption,
        domainRecs_length_of_mem ha, domainRecs_length_of_mem hb]
  · intro h1
    rcases hr : rank_weak_domains ds with _ | ⟨a, _ | ⟨b, t⟩⟩
    · rw [hr] at hlen; simp at hlen; omega
    · have ha := hmem a (by rw [hr]; simp)
      simp [generate_recommendations, hr, Except.toOption, domainRecs_length_of_mem ha]
    · rw [hr] at hlen; simp at hlen; omega

/-- Witness for the amended C7 on a two-domain map. -/
theorem generate_recommendations_count_witness :
    (generate_recommendations [("Identify", 2), ("Protect", 3)]).toOption.map
      List.length = some 4 :=
  (generate_recommendations_count [("Identify", 2), ("Protect", 3)]
    (by simp [csfDomains])).1 (by simp)

/-- C7 counterexample: a two-domain maturity map whose names are not CSF
domain names gets an empty recommendation list, not 4 entries. -/
theorem generate_recommendations_unknown_domains :
    (generate_recommendations [("Alpha", 0), ("Beta", 1)]).toOption.map
      List.length = some 0 ∧ (some 0 : Option ℕ) ≠ some 4 := by
  constructor
  · norm_num [generate_recommendations, rank_weak_domains, sortDesc, insertDesc,
      domainRecs, round2, pyround, Except.toOption]
    decide
  · simp

/-! ### Missing responses abort the computation -/

theorem lookupRatings_error (responses : List (String × ℚ)) (qids : List String)
    (q : String) (hq : q ∈ qids) (hmiss : responses.lookup q = none) :
    ∃ e, lookupRatings responses qids = .error e := by
  induction qids with
  | nil => cases hq
  | cons q0 qs ih =>
    rcases List.mem_cons.1 hq with rfl | hq'
    · exact ⟨.keyError q, by simp [lookupRatings, hmiss]⟩
    · cases h0 : responses.lookup q0 with
      | none => exact ⟨.keyError q0, by simp [lookupRatings, h0]⟩
      | some v =>
        obtain ⟨e, he⟩ := ih hq'
        exact ⟨e, by simp [lookupRatings, h0, he, exceptBind_error]⟩

theorem calculate_domain_scores_error (responses : List (String × ℚ))
    (grouping : List (String × List String)) (d : String) (qids : List String)
    (q : String) (hd : (d, qids) ∈ grouping) (hq : q ∈ qids)
    (hmiss : responses.lookup q = none) :
    ∃ e, calculate_domain_scores responses grouping = .error e := by
  induction grouping with
  | nil => cases hd
  | cons p rest ih =>
    obtain ⟨d0, qs0⟩ := p
    rcases List.mem_cons.1 hd with heq | hd'
    · rw [Prod.mk.injEq] at heq
      obtain ⟨h1, h2⟩ := heq
      subst h1
      subst h2
      obtain ⟨e, he⟩ := lookupRatings_error responses qids q hq hmiss
      exact ⟨e, by simp [calculate_domain_scores, he, exceptBind_error]⟩
    · cases h0 : lookupRatings responses qs0 with
      | error e => exact ⟨e, by simp [calculate_domain_scores, h0, exceptBind_error]⟩
      | ok scores =>
        cases scores with
        | nil => exact ⟨.zeroDivisionError, by simp [calculate_domain_scores, h0, exceptBind_ok]⟩
        | cons v vs =>
          obtain ⟨e, he⟩ := ih hd'
          exact ⟨e, by simp [calculate_domain_scores, h0, he, exceptBind_ok, exceptBind_error]⟩

/-- C4: when some question identifier referenced by the domain grouping has
no entry in the response set, the orchestrator fails with an explicit error
(a `KeyError`, realising `MissingResponse`) and returns no result record; in
particular it never substitutes a default rating. -/
theorem run_assessment_missing_response (responses : List (String × ℚ))
    (grouping : List (String × List String)) (context : Context)
    (weights : Option (List (String × ℚ))) (d : String) (qids : List String)
    (q : String) (hd : (d, qids) ∈ grouping) (hq : q ∈ qids)
    (hmiss : responses.lookup q = none) :
    ∃ e, run_assessment responses grouping context weights = .error e := by
  obtain ⟨e, he⟩ := calculate_domain_scores_error responses grouping d qids q hd hq hmiss
  exact ⟨e, by simp [run_assessment, he, exceptBind_error]⟩

/-- Witness for C4: an empty response set with one required question. -/
theorem run_assessment_missing_response_witness :
    ∃ e, run_assessment [] wGrouping wContext none = .error e :=
  run_assessment_missing_response [] wGrouping wContext none "Identify" ["ID1"] "ID1"
    (by simp [wGrouping]) (by simp) rfl

/-! ### The likelihood formula -/

/-- Likelihood as the claim words it: weakness times applied weight summed
over the domains of the maturity map, divided by the sum of the APPLIED
weights (`get(domain, 1)`), rounded to two decimals.  This is the comparison
definition for the refinement claim about `calculate_likelihood`. -/
def likelihood_per_claim (ds : List (String × ℚ))
    (w : Option (List (String × ℚ))) : ℚ :=
  round2
    ((ds.map (fun p => (4 - p.2) *
        (match w with | none => 1 | some m => (m.lookup p.1).getD 1))).sum /
      (ds.map (fun p =>
        (match w with | none => (1 : ℚ) | some m => (m.lookup p.1).getD 1))).sum)

theorem uniform_lookup_getD (ds : List (String × ℚ)) (k : String) :
    (((ds.map (fun p => (p.1, (1 : ℚ)))).lookup k).getD 1) = 1 := by
  induction ds with
  | nil => rfl
  | cons p t ih =>
    rw [List.map_cons, List.lookup_cons]
    cases h : (k == p.1) <;> simp [h, ih]

theorem sum_map_snd_uniform (ds : List (String × ℚ)) :
    ((ds.map (fun p => (p.1, (1 : ℚ)))).map Prod.snd).sum = (ds.length : ℚ) := by
  induction ds with
  | nil => simp
  | cons p t ih =>
    simp only [List.map_cons, List.sum_cons, List.length_cons, ih]
    push_cast
    ring

/-- C3 counterexample: with maturity map `{A: 0, B: 0}` and weight map
`{A: 1}` (positive weights), the code divides by `sum(values) = 1` and
returns 8.0, while the claim's formula divides by the sum of the applied
weights `1 + 1 = 2` and yields 4.0. -/
theorem calculate_likelihood_not_applied_weights :
    calculate_likelihood [("A", 0), ("B", 0)] (some [("A", 1)]) = .ok 8 ∧
    likelihood_per_claim [("A", 0), ("B", 0)] (some [("A", 1)]) = 4 ∧
    (Except.ok (8 : ℚ) : Except PyError ℚ) ≠ .ok 4 := by
  have hA : List.lookup "A" [("A", (1 : ℚ))] = some 1 := rfl
  have hB : List.lookup "B" [("A", (1 : ℚ))] = none := rfl
  refine ⟨?_, ?_, ?_⟩
  · norm_num [calculate_likelihood, round2, pyround, hA, hB]
  · norm_num [likelihood_per_claim, round2, pyround, hA, hB]
  · intro h
    injection h with h'
    norm_num at h'

/-- C3 (amended): with no weight map supplied, the likelihood is the
unweighted mean weakness over the domains of the maturity map, rounded to
two decimals; with a supplied non-empty positive weight map it is the sum of
`(4 - maturity) * get(domain, 1)` divided by the sum of the weight map's
values (not of the applied weights), rounded to two decimals. -/
theorem calculate_likelihood_formula (ds : List (String × ℚ)) (hne : ds ≠ []) :
    calculate_likelihood ds none =
      .ok (round2 ((ds.map (fun p => 4 - p.2)).sum / (ds.length : ℚ))) ∧
    (∀ m : List (String × ℚ), (∀ p ∈ m, 0 < p.2) → m ≠ [] →
      calculate_likelihood ds (some m) =
        .ok (round2 ((ds.map (fun p => (4 - p.2) * ((m.lookup p.1).getD 1))).sum /
          (m.map Prod.snd).sum))) := by
  constructor
  · have hlen : (ds.length : ℚ) ≠ 0 := by
      intro h
      exact hne (List.length_eq_zero.1 (by exact_mod_cast h))
    simp only [calculate_likelihood, sum_map_snd_uniform, uniform_lookup_getD, mul_one]
    rw [if_neg hlen]
  · intro m hpos hm
    have htot : (m.map Prod.snd).sum ≠ 0 := by
      refine ne_of_gt (List.sum_pos _ ?_ ?_)
      · intro x hx
        obtain ⟨p, hp, rfl⟩ := List.mem_map.1 hx
        exact hpos p hp
      · simp [hm]
    simp only [calculate_likelihood]
    rw [if_neg htot]

/-- Witness for the amended C3 on a one-domain map with no weight map. -/
theorem calculate_likelihood_formula_witness :
    calculate_likelihood [("Identify", 2)] none = .ok 2 := by
  have h := (calculate_likelihood_formula [("Identify", 2)] (by simp)).1
  rw [h]
  norm_num [round2, pyround]

/-! ### The engine performs no range validation -/

theorem lookupRatings_ok (responses : List (String × ℚ)) (qids : List String)
    (h : ∀ q ∈ qids, (responses.lookup q).isSome) :
    ∃ vs, lookupRatings responses qids = .ok vs ∧ vs.length = qids.length := by
  induction qids with
  | nil => exact ⟨[], rfl, rfl⟩
  | cons q0 qs ih =>
    have h0 := h q0 (List.mem_cons_self _ _)
    cases hl : responses.lookup q0 with
    | none => rw [hl] at h0; cases h0
    | some v =>
      obtain ⟨vs, hvs, hlen⟩ := ih (fun q hq => h q (List.mem_cons_of_mem _ hq))
      exact ⟨v :: vs, by simp [lookupRatings, hl, hvs, exceptBind_ok], by simp [hlen]⟩

theorem calculate_domain_scores_ok (responses : List (String × ℚ))
    (grouping : List (String × List String))
    (h : ∀ p ∈ grouping, p.2 ≠ [] ∧ ∀ q ∈ p.2, (responses.lookup q).isSome) :
    ∃ ds, calculate_domain_scores responses grouping = .ok ds ∧
      ds.map Prod.fst = grouping.map Prod.fst := by
  induction grouping with
  | nil => exact ⟨[], rfl, rfl⟩
  | cons p rest ih =>
    obtain ⟨d0, qs0⟩ := p
    obtain ⟨hne, hsome⟩ := h (d0, qs0) (List.mem_cons_self _ _)
    obtain ⟨vs, hvs, hlen⟩ := lookupRatings_ok responses qs0 hsome
    obtain ⟨ds, hds, hkeys⟩ := ih (fun p hp => h p (List.mem_cons_of_mem _ hp))
    cases vs with
    | nil => exact absurd (List.length_eq_zero.1 hlen.symm) hne
    | cons v vs' =>
      refine ⟨(d0, round2 ((v :: vs').sum / ((v :: vs').length : ℚ))) :: ds, ?_, ?_⟩
      · simp [calculate_domain_scores, hvs, hds, exceptBind_ok]
      · simp [hkeys]

theorem calculate_likelihood_ok (ds : List (String × ℚ))
    (w : Option (List (String × ℚ)))
    (h : match w with | none => ds ≠ [] | some m => (m.map Prod.snd).sum ≠ 0) :
    ∃ L, calculate_likelihood ds w = .ok L := by
  cases w with
  | none =>
    have hlen : (ds.length : ℚ) ≠ 0 := fun hc =>
      h (List.length_eq_zero.1 (by exact_mod_cast hc))
    simp only [calculate_likelihood, sum_map_snd_uniform]
    exact ⟨_, if_neg hlen⟩
  | some m =>
    simp only [calculate_likelihood]
    exact ⟨_, if_neg h⟩

theorem generate_recommendations_ok (ds : List (String × ℚ)) (h : ds ≠ []) :
    ∃ recs, generate_recommendations ds = .ok recs := by
  have hlen := rank_weak_domains_length ds
  rcases hr : rank_weak_domains ds with _ | ⟨a, _ | ⟨b, t⟩⟩
  · rw [hr] at hlen
    exact absurd (List.length_eq_zero.1 hlen.symm) h
  · exact ⟨domainRecs a.1, by simp [generate_recommendations, hr]⟩
  · exact ⟨domainRecs a.1 ++ domainRecs b.1, by simp [generate_recommendations, hr]⟩

/-- Some rating or context factor lies outside the closed interval [0,4]. -/
def hasOutOfRange (responses : List (String × ℚ)) (context : Context) : Prop :=
  (∃ p ∈ responses, p.2 < 0 ∨ 4 < p.2) ∨
  context.data_sensitivity < 0 ∨ 4 < context.data_sensitivity ∨
  context.operational_dependency < 0 ∨ 4 < context.operational_dependency ∨
  context.financial_exposure < 0 ∨ 4 < context.financial_exposure ∨
  context.reputational_risk < 0 ∨ 4 < context.reputational_risk

/-- C5 (amended): the engine performs no range validation.  Even when some
rating or context factor lies outside [0,4], as long as the input is
otherwise well-formed (every referenced question answered, no empty domain,
nonzero total weight) the orchestrator returns a result record computed from
the raw values; it neither rejects nor clamps. -/
theorem run_assessment_accepts_out_of_range (responses : List (String × ℚ))
    (grouping : List (String × List String)) (context : Context)
    (weights : Option (List (String × ℚ)))
    (hoor : hasOutOfRange responses context)
    (hgne : grouping ≠ [])
    (hq : ∀ p ∈ grouping, p.2 ≠ [] ∧ ∀ q ∈ p.2, (responses.lookup q).isSome)
    (hw : ∀ m, weights = some m → (m.map Prod.snd).sum ≠ 0) :
    ∃ res, run_assessment responses grouping context weights = .ok res := by
  obtain ⟨ds, hds, hkeys⟩ := calculate_domain_scores_ok responses grouping hq
  have hdne : ds ≠ [] := by
    intro hc
    subst hc
    exact hgne (List.map_eq_nil_iff.1 hkeys.symm)
  have hl : ∃ L, calculate_likelihood ds weights = .ok L := by
    cases weights with
    | none => exact calculate_likelihood_ok ds none hdne
    | some m => exact calculate_likelihood_ok ds (some m) (hw m rfl)
  obtain ⟨L, hL⟩ := hl
  obtain ⟨recs, hrecs⟩ := generate_recommendations_ok ds hdne
  have hrun : run_assessment responses grouping context weights =
      .ok
        { domain_scores := ds
          likelihood := L
          impact := calculate_impact context
          risk_score := calculate_risk L (calculate_impact context)
          risk_band := risk_band (calculate_risk L (calculate_impact context))
          weak_domain_ranking := rank_weak_domains ds
          recommendations := recs } := by
    simp only [run_assessment, hds, hL, hrecs, exceptBind_ok]
  exact ⟨_, hrun⟩

/-- C5 counterexample: rating 7 is outside [0,4], yet the engine returns a
result record computed from the raw value (likelihood −3.0): it neither
rejects with an error nor clamps. -/
theorem run_assessment_out_of_range_accepted :
    (run_assessment [("ID1", 7)] [("Identify", ["ID1"])] ⟨0, 0, 0, 0⟩
        none).toOption.map Result.likelihood = some (-3) ∧
    ((7 : ℚ) < 0 ∨ 4 < (7 : ℚ)) := by
  constructor
  · norm_num [run_assessment, calculate_domain_scores, lookupRatings,
      calculate_likelihood, calculate_impact, calculate_risk, risk_band,
      rank_weak_domains, sortDesc, insertDesc, generate_recommendations,
      round2, pyround, round_eq, Except.toOption, exceptBind_ok]
  · norm_num

/-- Witness for the amended C5 at the same out-of-range input. -/
theorem run_assessment_accepts_out_of_range_witness :
    ∃ res, run_assessment [("ID1", 7)] [("Identify", ["ID1"])] ⟨0, 0, 0, 0⟩
      none = .ok res := by
  apply run_assessment_accepts_out_of_range
  · exact Or.inl ⟨("ID1", 7), by simp, Or.inr (by norm_num)⟩
  · simp
  · decide
  · intro m h
    cases h

/-! ### Double rounding of the likelihood -/

/-- Ratings for a question list, `none` when one is missing; auxiliary to
the claim's comparison quantity. -/
def lookupAll (responses : List (String × ℚ)) : List String → Option (List ℚ)
  | [] => some []
  | q :: qs => do
    let v ← responses.lookup q
    let vs ← lookupAll responses qs
    some (v :: vs)

/-- Raw (unrounded) per-domain mean maturities. -/
def rawMeans (responses : List (String × ℚ)) :
    List (String × List String) → Option (List ℚ)
  | [] => some []
  | (_, qids) :: rest => do
    let vs ← lookupAll responses qids
    if vs.length = 0 then none
    else do
      let ms ← rawMeans responses rest
      some ((vs.sum / (vs.length : ℚ)) :: ms)

/-- The comparison quantity of the claim: `round2` of the mean of the raw
(unrounded) per-domain weaknesses. -/
def raw_mean_likelihood (responses : List (String × ℚ))
    (grouping : List (String × List String)) : Option ℚ := do
  let ms ← rawMeans responses grouping
  if ms.length = 0 then none
  else some (round2 ((ms.map (fun m => 4 - m)).sum / (ms.length : ℚ)))

/-- Three domains of three questions whose means 1/3, 1/3 and 4/3 round to
0.33, 0.33 and 1.33, making the doubly rounded likelihood 3.34 while the raw
mean weakness 10/3 rounds to 3.33. -/
def dr10 : List (String × ℚ) :=
  [("a", 1), ("b", 0), ("c", 0), ("d", 1), ("e", 0), ("f", 0),
   ("g", 2), ("h", 1), ("i", 1)]

def dg10 : List (String × List String) :=
  [("Identify", ["a", "b", "c"]), ("Protect", ["d", "e", "f"]),
   ("Detect", ["g", "h", "i"])]

/-- The engine's output on that input. -/
def res10 : Result :=
  { domain_scores := [("Identify", 33 / 100), ("Protect", 33 / 100), ("Detect", 133 / 100)]
    likelihood := 167 / 50
    impact := 2
    risk_score := 167 / 25
    risk_band := "Medium"
    weak_domain_ranking :=
      [("Identify", 367 / 100), ("Protect", 367 / 100), ("Detect", 267 / 100)]
    recommendations := domainRecs "Identify" ++ domainRecs "Protect" }

theorem run_assessment_dr10 :
    run_assessment dr10 dg10 wContext none = .ok res10 := by
  have la : List.lookup "a" dr10 = some 1 := rfl
  have lb : List.lookup "b" dr10 = some 0 := rfl
  have lc : List.lookup "c" dr10 = some 0 := rfl
  have ld : List.lookup "d" dr10 = some 1 := rfl
  have le' : List.lookup "e" dr10 = some 0 := rfl
  have lf : List.lookup "f" dr10 = some 0 := rfl
  have lg : List.lookup "g" dr10 = some 2 := rfl
  have lh : List.lookup "h" dr10 = some 1 := rfl
  have li : List.lookup "i" dr10 = some 1 := rfl
  have r1 : round2 ((1 : ℚ) / 3) = 33 / 100 := by norm_num [round2, pyround, round_eq]
  have r2 : round2 ((4 : ℚ) / 3) = 133 / 100 := by norm_num [round2, pyround, round_eq]
  have r3 : round2 ((367 : ℚ) / 100) = 367 / 100 := by norm_num [round2, pyround, round_eq]
  have r4 : round2 ((267 : ℚ) / 100) = 267 / 100 := by norm_num [round2, pyround, round_eq]
  have r5 : round2 ((1001 : ℚ) / 300) = 167 / 50 := by norm_num [round2, pyround, round_eq]
  have r6 : round2 (2 : ℚ) = 2 := by norm_num [round2, pyround, round_eq]
  have r7 : round2 ((167 : ℚ) / 25) = 167 / 25 := by norm_num [round2, pyround, round_eq]
  norm_num [run_assessment, calculate_domain_scores, lookupRatings,
    calculate_likelihood, calculate_impact, calculate_risk, risk_band,
    rank_weak_domains, sortDesc, insertDesc, generate_recommendations,
    uniform_lookup_getD, sum_map_snd_uniform,
    r1, r2, r3, r4, r5, r6, r7, exceptBind_ok, dg10, wContext, res10,
    la, lb, lc, ld, le', lf, lg, lh, li]

/-- C10: the orchestrator computes its likelihood from the two-decimal
rounded domain scores (`calculate_likelihood` applied to the output of
`calculate_domain_scores`), not from the raw per-domain means, and this
doubly rounded value can differ from `round2` of the mean raw weakness: on
`dr10`/`dg10` the engine yields 3.34 while the raw mean yields 3.33. -/
theorem run_assessment_double_rounding :
    (∀ (responses : List (String × ℚ)) (grouping : List (String × List String))
      (context : Context) (weights : Option (List (String × ℚ))) (res : Result),
      run_assessment responses grouping context weights = .ok res →
      ∃ ds, calculate_domain_scores responses grouping = .ok ds ∧
        calculate_likelihood ds weights = .ok res.likelihood) ∧
    (run_assessment dr10 dg10 wContext none).toOption.map Result.likelihood =
      some (167 / 50) ∧
    raw_mean_likelihood dr10 dg10 = some (333 / 100) ∧
    (167 / 50 : ℚ) ≠ 333 / 100 := by
  refine ⟨?_, ?_, ?_, by norm_num⟩
  · intro responses grouping context weights res hok
    simp only [run_assessment] at hok
    cases hds : calculate_domain_scores responses grouping with
    | error e => rw [hds, exceptBind_error] at hok; cases hok
    | ok ds =>
      rw [hds] at hok
      simp only [exceptBind_ok] at hok
      cases hL : calculate_likelihood ds weights with
      | error e => rw [hL, exceptBind_error] at hok; cases hok
      | ok L =>
        rw [hL] at hok
        simp only [exceptBind_ok] at hok
        cases hR : generate_recommendations ds with
        | error e => rw [hR, exceptBind_error] at hok; cases hok
        | ok recs =>
          rw [hR] at hok
          simp only [exceptBind_ok] at hok
          injection hok with hok'
          subst hok'
          exact ⟨ds, rfl, hL⟩
  · rw [run_assessment_dr10]
    rfl
  · have la : List.lookup "a" dr10 = some 1 := rfl
    have lb : List.lookup "b" dr10 = some 0 := rfl
    have lc : List.lookup "c" dr10 = some 0 := rfl
    have ld : List.lookup "d" dr10 = some 1 := rfl
    have le' : List.lookup "e" dr10 = some 0 := rfl
    have lf : List.lookup "f" dr10 = some 0 := rfl
    have lg : List.lookup "g" dr10 = some 2 := rfl
    have lh : List.lookup "h" dr10 = some 1 := rfl
    have li : List.lookup "i" dr10 = some 1 := rfl
    have r8 : round2 ((10 : ℚ) / 3) = 333 / 100 := by norm_num [round2, pyround, round_eq]
    norm_num [raw_mean_likelihood, rawMeans, lookupAll, r8, dg10, List.cons_ne_nil,
      la, lb, lc, ld, le', lf, lg, lh, li]

/-- Witness for C10's universally quantified conjunct at the concrete
double-rounding input. -/
theorem run_assessment_double_rounding_witness :
    ∃ ds, calculate_domain_scores dr10 dg10 = .ok ds ∧
      calculate_likelihood ds none = .ok res10.likelihood :=
  run_assessment_double_rounding.1 dr10 dg10 wContext none res10 run_assessment_dr10

/-! ### Range invariants of the assessment result -/

theorem lookup_mem {l : List (String × ℚ)} {k : String} {v : ℚ}
    (h : l.lookup k = some v) : (k, v) ∈ l := by
  induction l with
  | nil => cases h
  | cons p t ih =>
    obtain ⟨a, b⟩ := p
    cases hk : (k == a) with
    | true =>
      simp only [List.lookup_cons, hk] at h
      injection h with hv
      subst hv
      have hka : k = a := eq_of_beq hk
      subst hka
      exact List.mem_cons_self _ _
    | false =>
      simp only [List.lookup_cons, hk] at h
      exact List.mem_cons_of_mem _ (ih h)

theorem sum_le_mul_length (l : List ℚ) (c : ℚ) (h : ∀ v ∈ l, v ≤ c) :
    l.sum ≤ c * l.length := by
  induction l with
  | nil => simp
  | cons v t ih =>
    simp only [List.sum_cons, List.length_cons]
    have h1 := h v (List.mem_cons_self _ _)
    have h2 := ih (fun x hx => h x (List.mem_cons_of_mem _ hx))
    push_cast
    push_cast at h2
    linarith

theorem lookupRatings_mem {responses : List (String × ℚ)} {qids : List String}
    {vs : List ℚ} (h : lookupRatings responses qids = .ok vs) :
    ∀ v ∈ vs, ∃ q, (q, v) ∈ responses := by
  induction qids generalizing vs with
  | nil =>
    injection h with h'
    subst h'
    simp
  | cons q0 qs ih =>
    cases hl : responses.lookup q0 with
    | none => simp only [lookupRatings, hl] at h; cases h
    | some v0 =>
      simp only [lookupRatings, hl] at h
      cases hrec : lookupRatings responses qs with
      | error e => rw [hrec, exceptBind_error] at h; cases h
      | ok vs' =>
        rw [hrec] at h
        simp only [exceptBind_ok] at h
        injection h with h'
        subst h'
        intro v hv
        rcases List.mem_cons.1 hv with rfl | hv'
        · exact ⟨q0, lookup_mem hl⟩
        · exact ih hrec v hv'

theorem calculate_domain_scores_spec {responses : List (String × ℚ)}
    {grouping : List (String × List String)} {ds : List (String × ℚ)}
    (hds : calculate_domain_scores responses grouping = .ok ds)
    (hresp : ∀ p ∈ responses, 0 ≤ p.2 ∧ p.2 ≤ 4) :
    (∀ p ∈ ds, 0 ≤ p.2 ∧ p.2 ≤ 4) ∧ ds.map Prod.fst = grouping.map Prod.fst := by
  induction grouping generalizing ds with
  | nil =>
    injection hds with h
    subst h
    exact ⟨by simp, rfl⟩
  | cons p rest ih =>
    obtain ⟨d0, qs0⟩ := p
    cases hlr : lookupRatings responses qs0 with
    | error e => simp only [calculate_domain_scores, hlr, exceptBind_error] at hds; cases hds
    | ok scores =>
      simp only [calculate_domain_scores, hlr, exceptBind_ok] at hds
      cases scores with
      | nil => cases hds
      | cons v vs' =>
        cases hrest : calculate_domain_scores responses rest with
        | error e => rw [hrest, exceptBind_error] at hds; cases hds
        | ok tail =>
          rw [hrest] at hds
          simp only [exceptBind_ok] at hds
          injection hds with h
          subst h
          obtain ⟨htail_bounds, htail_keys⟩ := ih hrest
          constructor
          · intro p hp
            rcases List.mem_cons.1 hp with rfl | hp'
            · have hbound : ∀ x ∈ v :: vs', 0 ≤ x ∧ x ≤ 4 := by
                intro x hx
                obtain ⟨q, hq⟩ := lookupRatings_mem hlr x hx
                exact hresp (q, x) hq
              have hlen : (0 : ℚ) < ((v :: vs').length : ℚ) := by
                exact_mod_cast Nat.succ_pos vs'.length
              have hsum0 : 0 ≤ (v :: vs').sum :=
                List.sum_nonneg (fun x hx => (hbound x hx).1)
              have hsum4 : (v :: vs').sum ≤ 4 * (v :: vs').length :=
                sum_le_mul_length _ 4 (fun x hx => (hbound x hx).2)
              refine ⟨round2_nonneg (div_nonneg hsum0 (le_of_lt hlen)), ?_⟩
              apply round2_le_four
              rw [div_le_iff₀ hlen]
              linarith
            · exact htail_bounds p hp'
          · simp [htail_keys]

theorem lookup_eraseP_ne (m : List (String × ℚ)) (d d' : String) (h : d' ≠ d) :
    (m.eraseP (fun p => p.1 == d)).lookup d' = m.lookup d' := by
  induction m with
  | nil => rfl
  | cons p t ih =>
    obtain ⟨a, b⟩ := p
    by_cases had : a = d
    · subst had
      rw [List.eraseP_cons_of_pos (by simp)]
      simp only [List.lookup_cons, beq_false_of_ne h]
    · rw [List.eraseP_cons_of_neg (by simp [had])]
      cases hd'a : (d' == a) with
      | true => simp only [List.lookup_cons, hd'a]
      | false =>
        simp only [List.lookup_cons, hd'a]
        exact ih

theorem sum_snd_eraseP (m : List (String × ℚ)) (d : String) (w : ℚ)
    (h : m.lookup d = some w) :
    (m.map Prod.snd).sum = w + ((m.eraseP (fun p => p.1 == d)).map Prod.snd).sum := by
  induction m with
  | nil => cases h
  | cons p t ih =>
    obtain ⟨a, b⟩ := p
    cases hda : (d == a) with
    | true =>
      have hd : d = a := eq_of_beq hda
      subst hd
      simp only [List.lookup_cons, beq_self_eq_true] at h
      injection h with h'
      subst h'
      rw [List.eraseP_cons_of_pos (by simp)]
      simp
    | false =>
      simp only [List.lookup_cons, hda] at h
      have hne : a ≠ d := Ne.symm (ne_of_beq_false hda)
      rw [List.eraseP_cons_of_neg (by simp [hne])]
      simp only [List.map_cons, List.sum_cons, ih h]
      ring

theorem sum_applied_le (keys : List String) (m : List (String × ℚ))
    (hnd : keys.Nodup) (hcov : ∀ d ∈ keys, (m.lookup d).isSome)
    (hpos : ∀ p ∈ m, 0 < p.2) :
    (keys.map (fun d => ((m.lookup d).getD 1))).sum ≤ (m.map Prod.snd).sum := by
  induction keys generalizing m with
  | nil =>
    simp only [List.map_nil, List.sum_nil]
    refine List.sum_nonneg ?_
    intro x hx
    obtain ⟨p, hp, rfl⟩ := List.mem_map.1 hx
    exact le_of_lt (hpos p hp)
  | cons d ks ih =>
    have hd := hcov d (List.mem_cons_self _ _)
    cases hl : m.lookup d with
    | none => rw [hl] at hd; cases hd
    | some w =>
      rw [List.nodup_cons] at hnd
      obtain ⟨hdk, hnd'⟩ := hnd
      have hsum := sum_snd_eraseP m d w hl
      have hks : (ks.map (fun d' => ((m.lookup d').getD 1))).sum =
          (ks.map (fun d' => (((m.eraseP (fun p => p.1 == d)).lookup d').getD 1))).sum := by
        refine congrArg List.sum (List.map_congr_left ?_)
        intro d' hd'
        rw [lookup_eraseP_ne m d d' (ne_of_mem_of_not_mem hd' hdk)]
      have hcov' : ∀ d' ∈ ks, ((m.eraseP (fun p => p.1 == d)).lookup d').isSome := by
        intro d' hd'
        rw [lookup_eraseP_ne m d d' (ne_of_mem_of_not_mem hd' hdk)]
        exact hcov d' (List.mem_cons_of_mem _ hd')
      have hpos' : ∀ p ∈ m.eraseP (fun p => p.1 == d), 0 < p.2 :=
        fun p hp => hpos p (List.mem_of_mem_eraseP hp)
      have hih := ih (m.eraseP (fun p => p.1 == d)) hnd' hcov' hpos'
      calc (List.map (fun d' => ((m.lookup d').getD 1)) (d :: ks)).sum
          = (m.lookup d).getD 1 + (ks.map (fun d' => ((m.lookup d').getD 1))).sum := by
            simp
        _ = w + (ks.map (fun d' => (((m.eraseP (fun p => p.1 == d)).lookup d').getD 1))).sum := by
            rw [hl, hks]
            rfl
        _ ≤ w + ((m.eraseP (fun p => p.1 == d)).map Prod.snd).sum := by linarith
        _ = (m.map Prod.snd).sum := hsum.symm

theorem calculate_likelihood_bounds {ds : List (String × ℚ)}
    {w : Option (List (String × ℚ))} {L : ℚ}
    (hds : ∀ p ∈ ds, 0 ≤ p.2 ∧ p.2 ≤ 4)
    (hnd : (ds.map Prod.fst).Nodup)
    (hw : ∀ m, w = some m → (∀ p ∈ m, 0 < p.2) ∧ ∀ p ∈ ds, (m.lookup p.1).isSome)
    (hok : calculate_likelihood ds w = .ok L) :
    0 ≤ L ∧ L ≤ 4 := by
  cases w with
  | none =>
    simp only [calculate_likelihood, sum_map_snd_uniform, uniform_lookup_getD,
      mul_one] at hok
    by_cases hlen : ((ds.length : ℚ)) = 0
    · rw [if_pos hlen] at hok; cases hok
    · rw [if_neg hlen] at hok
      injection hok with h
      subst h
      have hlen' : (0 : ℚ) < ds.length :=
        lt_of_le_of_ne (by positivity) (Ne.symm hlen)
      have hsum0 : 0 ≤ (ds.map (fun p => 4 - p.2)).sum := by
        refine List.sum_nonneg ?_
        intro x hx
        obtain ⟨p, hp, rfl⟩ := List.mem_map.1 hx
        linarith [(hds p hp).2]
      have hsum4 : (ds.map (fun p => (4 : ℚ) - p.2)).sum ≤ 4 * (ds.length : ℚ) := by
        have hb : ∀ v ∈ ds.map (fun p => (4 : ℚ) - p.2), v ≤ 4 := by
          intro v hv
          obtain ⟨p, hp, rfl⟩ := List.mem_map.1 hv
          linarith [(hds p hp).1]
        have := sum_le_mul_length (ds.map (fun p => (4 : ℚ) - p.2)) 4 hb
        simpa using this
      refine ⟨round2_nonneg (div_nonneg hsum0 (le_of_lt hlen')), ?_⟩
      apply round2_le_four
      rw [div_le_iff₀ hlen']
      linarith
  | some m =>
    obtain ⟨hpos, hcov⟩ := hw m rfl
    simp only [calculate_likelihood] at hok
    by_cases htw : ((m.map Prod.snd).sum = 0)
    · rw [if_pos htw] at hok; cases hok
    · rw [if_neg htw] at hok
      injection hok with h
      subst h
      have htwpos : 0 < (m.map Prod.snd).sum := by
        refine lt_of_le_of_ne (List.sum_nonneg ?_) (Ne.symm htw)
        intro x hx
        obtain ⟨p, hp, rfl⟩ := List.mem_map.1 hx
        exact le_of_lt (hpos p hp)
      have happlied_pos : ∀ p ∈ ds, 0 < ((m.lookup p.1).getD 1) := by
        intro p hp
        have hs := hcov p hp
        cases hl : m.lookup p.1 with
        | none => rw [hl] at hs; cases hs
        | some v =>
          simp only [hl, Option.getD_some]
          exact hpos _ (lookup_mem hl)
      have hww0 : 0 ≤ (ds.map (fun p => (4 - p.2) * ((m.lookup p.1).getD 1))).sum := by
        refine List.sum_nonneg ?_
        intro x hx
        obtain ⟨p, hp, rfl⟩ := List.mem_map.1 hx
        exact mul_nonneg (by linarith [(hds p hp).2]) (le_of_lt (happlied_pos p hp))
      have hww4 : (ds.map (fun p => (4 - p.2) * ((m.lookup p.1).getD 1))).sum ≤
          4 * (m.map Prod.snd).sum := by
        have h1 : (ds.map (fun p => (4 - p.2) * ((m.lookup p.1).getD 1))).sum ≤
            (ds.map (fun p => 4 * ((m.lookup p.1).getD 1))).sum := by
          refine List.sum_le_sum ?_
          intro p hp
          have ha := happlied_pos p hp
          have hb := (hds p hp).1
          nlinarith
        have h2 : (ds.map (fun p => 4 * ((m.lookup p.1).getD 1))).sum =
            4 * (ds.map (fun p => ((m.lookup p.1).getD 1))).sum :=
          List.sum_map_mul_left ds (fun p => ((m.lookup p.1).getD 1)) 4
        have h3 : (ds.map (fun p => ((m.lookup p.1).getD 1))).sum ≤
            (m.map Prod.snd).sum := by
          have hmm : ds.map (fun p => ((m.lookup p.1).getD 1)) =
              (ds.map Prod.fst).map (fun d => ((m.lookup d).getD 1)) := by
            rw [List.map_map]
            rfl
          rw [hmm]
          refine sum_applied_le (ds.map Prod.fst) m hnd ?_ hpos
          intro d hd
          obtain ⟨p, hp, rfl⟩ := List.mem_map.1 hd
          exact hcov p hp
        linarith
      refine ⟨round2_nonneg (div_nonneg hww0 (le_of_lt htwpos)), ?_⟩
      apply round2_le_four
      rw [div_le_iff₀ htwpos]
      linarith

theorem calculate_impact_bounds {c : Context}
    (hc : (0 ≤ c.data_sensitivity ∧ c.data_sensitivity ≤ 4) ∧
      (0 ≤ c.operational_dependency ∧ c.operational_dependency ≤ 4) ∧
      (0 ≤ c.financial_exposure ∧ c.financial_exposure ≤ 4) ∧
      (0 ≤ c.reputational_risk ∧ c.reputational_risk ≤ 4)) :
    0 ≤ calculate_impact c ∧ calculate_impact c ≤ 4 := by
  obtain ⟨⟨h1, h2⟩, ⟨h3, h4⟩, ⟨h5, h6⟩, ⟨h7, h8⟩⟩ := hc
  unfold calculate_impact
  constructor
  · apply round2_nonneg
    positivity
  · apply round2_le_four
    linarith

theorem rank_weak_domains_bounds {ds : List (String × ℚ)}
    (hds : ∀ p ∈ ds, 0 ≤ p.2 ∧ p.2 ≤ 4) :
    ∀ p ∈ rank_weak_domains ds, 0 ≤ p.2 ∧ p.2 ≤ 4 := by
  intro p hp
  obtain ⟨q, hq, rfl⟩ := mem_rank_weak_domains hp
  obtain ⟨h0, h4⟩ := hds q hq
  exact ⟨round2_nonneg (by linarith), round2_le_four (by linarith)⟩

/-- C1 (amended): for inputs whose ratings and context factors all lie in
[0,4] and whose supplied weight map (if any) is positive and contains an
entry for every domain of the grouping, every result record the orchestrator
returns satisfies: all domain maturities and weaknesses in [0,4], likelihood
in [0,4], impact in [0,4], and risk score in [0,16]. -/
theorem run_assessment_bounds (responses : List (String × ℚ))
    (grouping : List (String × List String)) (context : Context)
    (weights : Option (List (String × ℚ))) (res : Result)
    (hresp : ∀ p ∈ responses, 0 ≤ p.2 ∧ p.2 ≤ 4)
    (hctx : (0 ≤ context.data_sensitivity ∧ context.data_sensitivity ≤ 4) ∧
      (0 ≤ context.operational_dependency ∧ context.operational_dependency ≤ 4) ∧
      (0 ≤ context.financial_exposure ∧ context.financial_exposure ≤ 4) ∧
      (0 ≤ context.reputational_risk ∧ context.reputational_risk ≤ 4))
    (hnd : (grouping.map Prod.fst).Nodup)
    (hw : ∀ m, weights = some m →
      (∀ p ∈ m, 0 < p.2) ∧ ∀ p ∈ grouping, (m.lookup p.1).isSome)
    (hok : run_assessment responses grouping context weights = .ok res) :
    (∀ p ∈ res.domain_scores, 0 ≤ p.2 ∧ p.2 ≤ 4) ∧
    (∀ p ∈ res.weak_domain_ranking, 0 ≤ p.2 ∧ p.2 ≤ 4) ∧
    (0 ≤ res.likelihood ∧ res.likelihood ≤ 4) ∧
    (0 ≤ res.impact ∧ res.impact ≤ 4) ∧
    (0 ≤ res.risk_score ∧ res.risk_score ≤ 16) := by
  simp only [run_assessment] at hok
  cases hds : calculate_domain_scores responses grouping with
  | error e => rw [hds, exceptBind_error] at hok; cases hok
  | ok ds =>
    rw [hds] at hok
    simp only [exceptBind_ok] at hok
    obtain ⟨hds_bounds, hds_keys⟩ := calculate_domain_scores_spec hds hresp
    cases hL : calculate_likelihood ds weights with
    | error e => rw [hL, exceptBind_error] at hok; cases hok
    | ok L =>
      rw [hL] at hok
      simp only [exceptBind_ok] at hok
      have hnd' : (ds.map Prod.fst).Nodup := by rw [hds_keys]; exact hnd
      have hw' : ∀ m, weights = some m →
          (∀ p ∈ m, 0 < p.2) ∧ ∀ p ∈ ds, (m.lookup p.1).isSome := by
        intro m hm
        obtain ⟨hpos, hcov⟩ := hw m hm
        refine ⟨hpos, ?_⟩
        intro p hp
        have hmem : p.1 ∈ grouping.map Prod.fst := by
          rw [← hds_keys]
          exact List.mem_map_of_mem _ hp
        obtain ⟨q, hq, hqe⟩ := List.mem_map.1 hmem
        rw [← hqe]
        exact hcov q hq
      have hLb := calculate_likelihood_bounds hds_bounds hnd' hw' hL
      have hIb := calculate_impact_bounds hctx
      cases hR : generate_recommendations ds with
      | error e => rw [hR, exceptBind_error] at hok; cases hok
      | ok recs =>
        rw [hR] at hok
        simp only [exceptBind_ok] at hok
        injection hok with h
        subst h
        refine ⟨hds_bounds, rank_weak_domains_bounds hds_bounds, hLb, hIb, ?_, ?_⟩
        · exact round2_nonneg (mul_nonneg hLb.1 hIb.1)
        · apply round2_le_sixteen
          nlinarith [hLb.1, hLb.2, hIb.1, hIb.2]

/-- C1 counterexample: every rating and context factor is an integer in
[0,4] and the supplied weight map `{Identify: 1}` is positive, yet the
returned likelihood is 8.0 > 4 and the risk score 32.0 > 16, because the
weight map lacks an entry for the Protect domain while `get(domain, 1)`
still applies weight 1 to it. -/
theorem run_assessment_bounds_violated :
    (run_assessment [("A1", 0), ("B1", 0)]
        [("Identify", ["A1"]), ("Protect", ["B1"])] ⟨4, 4, 4, 4⟩
        (some [("Identify", 1)])).toOption.map
      (fun r => (r.likelihood, r.risk_score)) = some (8, 32) ∧
    ¬ ((8 : ℚ) ≤ 4) ∧ ¬ ((32 : ℚ) ≤ 16) := by
  have lA : List.lookup "A1" [("A1", (0 : ℚ)), ("B1", 0)] = some 0 := rfl
  have lB : List.lookup "B1" [("A1", (0 : ℚ)), ("B1", 0)] = some 0 := rfl
  have lI : List.lookup "Identify" [("Identify", (1 : ℚ))] = some 1 := rfl
  have lP : List.lookup "Protect" [("Identify", (1 : ℚ))] = none := rfl
  have r0 : round2 (0 : ℚ) = 0 := by norm_num [round2, pyround, round_eq]
  have r4 : round2 (4 : ℚ) = 4 := by norm_num [round2, pyround, round_eq]
  have r8 : round2 (8 : ℚ) = 8 := by norm_num [round2, pyround, round_eq]
  have r32 : round2 (32 : ℚ) = 32 := by norm_num [round2, pyround, round_eq]
  refine ⟨?_, by norm_num, by norm_num⟩
  norm_num [run_assessment, calculate_domain_scores, lookupRatings,
    calculate_likelihood, calculate_impact, calculate_risk, risk_band,
    rank_weak_domains, sortDesc, insertDesc, generate_recommendations,
    r0, r4, r8, r32, exceptBind_ok, Except.toOption, lA, lB, lI, lP]

/-- Witness for the amended C1 on a concrete in-range input. -/
theorem run_assessment_bounds_witness :
    0 ≤ wResult.likelihood ∧ wResult.likelihood ≤ 4 ∧
    0 ≤ wResult.risk_score ∧ wResult.risk_score ≤ 16 := by
  obtain ⟨_, _, hL, _, hR⟩ :=
    run_assessment_bounds wResponses wGrouping wContext none wResult
      (by norm_num [wResponses]) (by norm_num [wContext]) (by simp [wGrouping])
      (fun m h => nomatch h) run_assessment_wInput
  exact ⟨hL.1, hL.2, hR.1, hR.2⟩

end CharityRisk
